import Mathlib

/-!
Shallow embedding of the model-lifecycle layer in
`llm_studio/src/utils/modeling_utils.py`, together with theorems about its
stopping-criterion engine, weight reconciliation, checkpoint persistence,
disk-space preflight, backbone-config reconciliation and model unwrapping.

Conventions of the embedding:
* Token tensors are lists of integers; a generated-token matrix is a list of
  rows (`List (List Int)`).
* A zero-dimensional stop-word tensor is `StopWord.scalar`, a one-dimensional
  one is `StopWord.vec`.
* The float mean used by the scalar fast path of `should_stop` is modelled by
  an exact rational mean returning `none` on an empty list (the float mean of
  an empty tensor is NaN, which compares unequal to 1).  This is exact for
  every batch of fewer than 2 to the 24 rows.
* Parameter tensors carry a dtype, a shape and a device string; values are
  irrelevant to the claims and are not modelled.
* Python exceptions are modelled with `Except`.
-/

namespace ModelingUtils

/-- Token dtypes distinguished by the code (`torch.int8`, `torch.uint8`,
`torch.float16`, `torch.bfloat16`, `torch.float32`); `float64` stands for any
dtype the disk-preflight does not recognise. -/
inductive Dtype where
  | float32
  | float16
  | bfloat16
  | int8
  | uint8
  | float64
deriving DecidableEq, Repr

/-- A torch parameter tensor as far as the claims are concerned: dtype,
shape and device; the numeric payload is irrelevant. -/
structure Tensor where
  dtype : Dtype
  shape : List Nat
  device : String
deriving DecidableEq, Repr

/-- Number of elements of a tensor (`param.numel()`). -/
def Tensor.numel (t : Tensor) : Nat := t.shape.prod

/-- Result of `param.to(device)`: same dtype and shape on the new device. -/
def Tensor.toDev (t : Tensor) (dev : String) : Tensor := { t with device := dev }

/-! ## Stopping-criterion engine (`TokenStoppingCriteria`) -/

/-- A stop word: either a zero-dimensional tensor (`scalar`) or a
one-dimensional tensor of token ids (`vec`). -/
inductive StopWord where
  | scalar (t : Int)
  | vec (ts : List Int)
deriving DecidableEq, Repr

/-- The token-id sequence denoted by a stop word: a scalar denotes the
length-one sequence holding it. -/
def StopWord.seq : StopWord → List Int
  | .scalar t => [t]
  | .vec ts => ts

/-- The inner loop of `get_num_vector_found_in_matrix_rows` for one row:
`for i in range(len(row) - len(vector) + 1): if torch.all(row[i : i + len(vector)] == vector)`.
Note that the Python range bound `len(row) - len(vector) + 1` is at most zero
when the vector is longer than the row, which matches
`row.length + 1 - vector.length` under truncated natural subtraction. -/
def vectorFoundInRow (vector row : List Int) : Bool :=
  (List.range (row.length + 1 - vector.length)).any
    (fun i => decide ((row.drop i).take vector.length = vector))

/-- `TokenStoppingCriteria.get_num_vector_found_in_matrix_rows`: number of
rows of the matrix in which the vector occurs as a window (the `break` after
the first hit makes each row count at most once). -/
def get_num_vector_found_in_matrix_rows (vector : List Int) (matrix : List (List Int)) : Nat :=
  matrix.countP (fun row => vectorFoundInRow vector row)

/-- Exact model of `torch.mean` on a float tensor of rationals: NaN (`none`)
on the empty tensor, the exact rational mean otherwise. -/
def floatMean (xs : List ℚ) : Option ℚ :=
  if xs.length = 0 then none else some (xs.sum / (xs.length : ℚ))

/-- `TokenStoppingCriteria.should_stop`.  The scalar path is
`(torch.mean(((generated_ids == stop_word_id).sum(1) > 0).float()) == 1).item()`;
the vector path compares `get_num_vector_found_in_matrix_rows` with the row
count. -/
def should_stop (generated_ids : List (List Int)) : StopWord → Bool
  | .scalar t =>
      decide (floatMean (generated_ids.map
        (fun row => if 0 < row.count t then (1 : ℚ) else 0)) = some 1)
  | .vec v =>
      decide (get_num_vector_found_in_matrix_rows v generated_ids = generated_ids.length)

/-- `TokenStoppingCriteria.__call__`: slice off the prompt, then report a stop
as soon as some stop word satisfies `should_stop`.  (The diagnostic warning on
a first-token stop has no bearing on the returned value and is not modelled.) -/
def tokenStoppingCall (stop_word_ids : List StopWord) (prompt_input_ids_len : Nat)
    (input_ids : List (List Int)) : Bool :=
  let generated_ids := input_ids.map (fun row => row.drop prompt_input_ids_len)
  stop_word_ids.any (fun w => should_stop generated_ids w)

/-! ## Disk-space preflight (`check_disk_space`) -/

/-- Byte count charged for one parameter by `check_disk_space`:
1 byte per element for 8-bit integer dtypes, 2 for 16-bit floats, 4 for
float32, and 4 (with a logged warning) for any other dtype. -/
def paramBytes (t : Tensor) : Nat :=
  match t.dtype with
  | .int8 => t.numel * 1
  | .uint8 => t.numel * 1
  | .float16 => t.numel * 2
  | .bfloat16 => t.numel * 2
  | .float32 => t.numel * 4
  | .float64 => t.numel * 4

/-- `model_size_in_bytes` as accumulated by `check_disk_space`, including the
doubling applied when the deepspeed strategy is active. -/
def model_size_in_bytes (params : List Tensor) (use_deepspeed : Bool) : Nat :=
  let s := (params.map paramBytes).sum
  if use_deepspeed then s * 2 else s

/-- The two figures reported by the disk-space error: the computed model size
in bytes (the message renders it times 1.03, in megabytes) and the free bytes
at the destination. -/
structure DiskErr where
  requiredBytes : Nat
  freeBytes : Nat
deriving DecidableEq, Repr

/-- `check_disk_space`, with the free-byte count of `shutil.disk_usage`
passed in as a parameter.  The comparison `model_size_in_bytes * 1.03 < free`
is modelled in exact rational arithmetic. -/
def check_disk_space (params : List Tensor) (free : Nat) (use_deepspeed : Bool) :
    Except DiskErr Unit :=
  if (model_size_in_bytes params use_deepspeed : ℚ) * (103 / 100) < (free : ℚ) then .ok ()
  else .error ⟨model_size_in_bytes params use_deepspeed, free⟩

/-- Whether an `Except` is a success. -/
def isOkE {ε α : Type} : Except ε α → Bool
  | .ok _ => true
  | .error _ => false

instance {ε α : Type} [DecidableEq ε] [DecidableEq α] : DecidableEq (Except ε α) := fun x y =>
  match x, y with
  | .ok a, .ok b =>
    if h : a = b then .isTrue (by rw [h]) else .isFalse (fun hc => h (Except.ok.inj hc))
  | .error a, .error b =>
    if h : a = b then .isTrue (by rw [h]) else .isFalse (fun hc => h (Except.error.inj hc))
  | .ok _, .error _ => .isFalse (fun hc => Except.noConfusion hc)
  | .error _, .ok _ => .isFalse (fun hc => Except.noConfusion hc)

/-! ## String helpers (Python substring and replacement semantics) -/

/-- Whether `needle` occurs as a contiguous character run inside `hay`
(Python `needle in hay`). -/
def containsSubChars (needle hay : List Char) : Bool :=
  (List.range (hay.length + 1)).any (fun i => needle.isPrefixOf (hay.drop i))

/-- Python `needle in hay` on strings. -/
def hasSubstr (needle hay : String) : Bool :=
  containsSubChars needle.toList hay.toList

/-- The characters of the literal `"_orig_mod."`. -/
def origModChars : List Char := "_orig_mod.".toList

/-- Python `hay.replace("_orig_mod.", "")`: remove every non-overlapping
occurrence, scanning left to right and resuming after each removal.  The fuel
argument only bounds the recursion; it never runs out when it starts at the
length of the list, since every step consumes at least one character. -/
def removeOrigModAux : Nat → List Char → List Char
  | 0, l => l
  | _ + 1, [] => []
  | fuel + 1, c :: rest =>
    if origModChars.isPrefixOf (c :: rest) then
      removeOrigModAux fuel ((c :: rest).drop origModChars.length)
    else c :: removeOrigModAux fuel rest

/-- `hay.replace("_orig_mod.", "")` on character lists. -/
def removeOrigModChars (l : List Char) : List Char := removeOrigModAux l.length l

/-- `k.replace("_orig_mod.", "")` on a key string. -/
def removeOrigMod (k : String) : String := String.mk (removeOrigModChars k.toList)

/-- `re.sub(r"^module\.", "", k)`: the anchored pattern matches at most once,
stripping a leading `module.`. -/
def stripModulePre (k : String) : String :=
  if ("module.".toList).isPrefixOf k.toList then
    String.mk (k.toList.drop ("module.".toList).length)
  else k

/-! ## State dictionaries -/

/-- A parameter snapshot: an ordered mapping from hierarchical keys to
tensors (a Python `dict`, hence keys are unique in every dict the program
builds). -/
abbrev StateDict := List (String × Tensor)

/-- The keys of a state dict, in order. -/
def keysOf (sd : StateDict) : List String := sd.map Prod.fst

/-- Dictionary lookup (first matching key). -/
def lookupSd (sd : StateDict) (k : String) : Option Tensor :=
  (sd.find? (fun kv => kv.1 == k)).map Prod.snd

/-! ## The error message of `Module.load_state_dict` and its regex scan

`load_model_weights` recovers shape-mismatched keys by running
`re.findall("size mismatch for (.*?):", str(e))` over the raised message.
The message is modelled after the torch format
`Error(s) in loading state_dict for <cls>:\n\t<msgs joined by \n\t>` where a
size mismatch contributes
`size mismatch for <key>: copying a param with shape ... from checkpoint, the
shape in current model is ...` (the concrete shape renderings, which contain
neither a colon nor the scanned pattern, are elided), and a strict load also
prepends `Missing key(s) in state_dict: "<k>", ... . ` and
`Unexpected key(s) in state_dict: ... . ` lines. -/

/-- The scanned pattern `size mismatch for `. -/
def patChars : List Char := "size mismatch for ".toList

/-- The `\n\t` separator `"\n\t".join` places between message lines. -/
def sepNT : List Char := ['\n', '\t']

/-- The fixed message header, ending in the first separator. -/
def headerChars : List Char := "Error(s) in loading state_dict for Model:\n\t".toList

/-- Everything a size-mismatch line prints after `<key>:`. -/
def mismatchTailChars : List Char :=
  " copying a param with shape from checkpoint, the shape in current model is different.".toList

/-- One `size mismatch for <key>: ...` message line. -/
def mismatchLineChars (k : String) : List Char :=
  patChars ++ k.toList ++ ':' :: mismatchTailChars

/-- Python `", ".join('"' + k + '"' for k in ks)`. -/
def quotedKeysChars : List String → List Char
  | [] => []
  | [k] => '"' :: k.toList ++ ['"']
  | k :: ks => '"' :: k.toList ++ '"' :: ',' :: ' ' :: quotedKeysChars ks

/-- The `Missing key(s) in state_dict: ... . ` message line. -/
def missingLineChars (ks : List String) : List Char :=
  "Missing key(s) in state_dict: ".toList ++ quotedKeysChars ks ++ ". ".toList

/-- The `Unexpected key(s) in state_dict: ... . ` message line. -/
def unexpectedLineChars (ks : List String) : List Char :=
  "Unexpected key(s) in state_dict: ".toList ++ quotedKeysChars ks ++ ". ".toList

/-- `"\n\t".join`. -/
def joinMsgs : List (List Char) → List Char
  | [] => []
  | [m] => m
  | m :: ms => m ++ sepNT ++ joinMsgs ms

/-- The lazy capture `(.*?):` of the scanned regex: consume characters up to
the first colon; `.` does not match a newline, and reaching the end of input
fails the match. -/
def grabKey : List Char → Option (List Char × List Char)
  | [] => none
  | c :: rest =>
    if c = ':' then some ([], rest)
    else if c = '\n' then none
    else
      match grabKey rest with
      | some (k, r) => some (c :: k, r)
      | none => none

/-- `re.findall("size mismatch for (.*?):", s)`: scan left to right; at each
position where the literal pattern matches, capture lazily up to the next
colon and resume after the match; otherwise advance one character.  The fuel
never runs out when it starts at the length of the list: a skip consumes one
character and a successful match consumes the pattern, the key and the colon. -/
def findSMAux : Nat → List Char → List (List Char)
  | 0, _ => []
  | _ + 1, [] => []
  | fuel + 1, c :: rest =>
    if patChars.isPrefixOf (c :: rest) then
      match grabKey ((c :: rest).drop patChars.length) with
      | some (k, r) => k :: findSMAux fuel r
      | none => findSMAux fuel rest
    else findSMAux fuel rest

/-- The scan at its canonical fuel. -/
def findSM (s : List Char) : List (List Char) := findSMAux s.length s

/-- The key list recovered from a load failure message. -/
def findAllSizeMismatch (msg : String) : List String :=
  (findSM msg.toList).map String.mk

/-! ## `Module.load_state_dict` -/

/-- Keys present in both dicts whose shapes disagree (these raise regardless
of strictness), in snapshot order. -/
def sizeMismatchKeys (model_state_dict sd : StateDict) : List String :=
  sd.filterMap (fun kv =>
    match lookupSd model_state_dict kv.1 with
    | some mv => if kv.2.shape ≠ mv.shape then some kv.1 else none
    | none => none)

/-- Model keys absent from the snapshot (an error only under strict loading). -/
def missingKeys (model_state_dict sd : StateDict) : List String :=
  (keysOf model_state_dict).filter (fun k => !((keysOf sd).contains k))

/-- Snapshot keys absent from the model (an error only under strict loading). -/
def unexpectedKeys (model_state_dict sd : StateDict) : List String :=
  (keysOf sd).filter (fun k => !((keysOf model_state_dict).contains k))

/-- The `error_msgs` list torch accumulates: under strict matching a missing
line and an unexpected line (each only when its key list is non-empty), then
one line per size mismatch. -/
def loadErrMsgs (model_state_dict sd : StateDict) (strict : Bool) : List (List Char) :=
  (if strict then
    (if (missingKeys model_state_dict sd).isEmpty then []
     else [missingLineChars (missingKeys model_state_dict sd)]) ++
    (if (unexpectedKeys model_state_dict sd).isEmpty then []
     else [unexpectedLineChars (unexpectedKeys model_state_dict sd)])
   else []) ++ (sizeMismatchKeys model_state_dict sd).map mismatchLineChars

/-- `model.load_state_dict(sd, strict)`: succeeds unless a size mismatch
exists or, under strict matching, a key is missing or unexpected; on failure
raises the formatted message. -/
def loadStateDict (model_state_dict sd : StateDict) (strict : Bool) : Except String Unit :=
  if (loadErrMsgs model_state_dict sd strict).isEmpty then .ok ()
  else .error (String.mk (headerChars ++ joinMsgs (loadErrMsgs model_state_dict sd strict)))

/-! ## `load_model_weights` -/

/-- Exceptions surfaced by `load_model_weights`: a `KeyError` from indexing
`model_state_dict[k]` in the filtering comprehension, or a re-raised
`load_state_dict` failure. -/
inductive LMWErr where
  | keyError (k : String)
  | loadError (msg : String)
deriving DecidableEq, Repr

/-- `cfg.architecture.backbone_dtype not in ("int4", "int8")`. -/
def backboneNotQuant (d : String) : Bool := !(d == "int4") && !(d == "int8")

/-- The comprehension filter
`not (("SCB" in k or "weight_format" in k) and backbone_dtype not in ("int4","int8"))`,
stated as the condition under which a key is dropped. -/
def dropCond (d : String) (k : String) : Bool :=
  (hasSubstr "SCB" k || hasSubstr "weight_format" k) && backboneNotQuant d

/-- The comprehension value condition: a saved 8-bit integer tensor is
replaced by the live model tensor when the target dtype is not quantized. -/
def replCond (d : String) (t : Tensor) : Bool :=
  backboneNotQuant d && (t.dtype == Dtype.int8 || t.dtype == Dtype.uint8)

/-- The filtering dict comprehension of `load_model_weights`: drop
quantization-marker keys, replace stale 8-bit tensors with the live model
tensor for the same key (a `KeyError` if the live model lacks it). -/
def filterWeights (d : String) (model_state_dict : StateDict) : StateDict → Except LMWErr StateDict
  | [] => .ok []
  | (k, v) :: rest =>
    if dropCond d k then filterWeights d model_state_dict rest
    else if replCond d v then
      match lookupSd model_state_dict k with
      | some mv => (filterWeights d model_state_dict rest).map (fun tail => (k, mv) :: tail)
      | none => .error (.keyError k)
    else (filterWeights d model_state_dict rest).map (fun tail => (k, v) :: tail)

/-- Keys the comprehension drops (the claim vocabulary for `dropped`). -/
def droppedKeys (d : String) (sd : StateDict) : List String :=
  (sd.filter (fun kv => dropCond d kv.1)).map Prod.fst

/-- Keys whose tensors the comprehension replaces with the live model value
(the claim vocabulary for `replaced`). -/
def replacedKeys (d : String) (sd : StateDict) : List String :=
  (sd.filter (fun kv => !(dropCond d kv.1) && replCond d kv.2)).map Prod.fst

/-- The two key renames: strip a leading `module.` (regex anchored at the
start), then delete every `_orig_mod.` occurrence. -/
def renameKeys (mw : StateDict) : StateDict :=
  (mw.map (fun kv => (stripModulePre kv.1, kv.2))).map
    (fun kv => (removeOrigMod kv.1, kv.2))

/-- The manual int8 fix: move every tensor to the configured device except
those whose key mentions `weight_format`. -/
def deviceFix (d dev : String) (mw : StateDict) : StateDict :=
  if d == "int8" then
    mw.map (fun kv => (kv.1, if hasSubstr "weight_format" kv.1 then kv.2 else kv.2.toDev dev))
  else mw

/-- Observable outcome of a successful `load_model_weights`: the dict handed
to the successful `load_state_dict` call, whether the non-strict fallback ran,
and whether the partial-load warning was logged (rank 0 only). -/
structure LoadOutcome where
  finalWeights : StateDict
  usedFallback : Bool
  warned : Bool
deriving DecidableEq, Repr

/-- `load_model_weights(model, model_weights, strict, cfg)`.  The snapshot is
filtered, strictness is forced off when entries were dropped, keys are
renamed, int8 tensors are moved; a strict `load_state_dict` is attempted and,
on failure, either re-raised (when strictness was demanded and survived) or
retried non-strictly after popping every key the failure message reports as a
size mismatch. -/
def load_model_weights (model_state_dict : StateDict) (d dev : String) (local_rank : Nat)
    (model_weights : StateDict) (strict : Bool) : Except LMWErr LoadOutcome :=
  let orig_num_items := model_weights.length
  match filterWeights d model_state_dict model_weights with
  | .error e => .error e
  | .ok mw₁ =>
    let strict := if mw₁.length ≠ orig_num_items then false else strict
    let mw₄ := deviceFix d dev (renameKeys mw₁)
    match loadStateDict model_state_dict mw₄ true with
    | .ok _ => .ok ⟨mw₄, false, false⟩
    | .error e =>
      if strict then .error (.loadError e)
      else
        let removed := findAllSizeMismatch e
        let mw₅ := mw₄.filter (fun kv => !(removed.contains kv.1))
        match loadStateDict model_state_dict mw₅ false with
        | .ok _ => .ok ⟨mw₅, true, local_rank == 0⟩
        | .error e₂ => .error (.loadError e₂)

/-! ## Modules and `unwrap_model` -/

/-- A torch module as the wrapping logic sees it: either a plain module
carrying its state dict, or one of the two distributed wrapper classes with
their `.module` attribute.  (`isinstance` checks only inspect the outermost
constructor.) -/
inductive TorchModule where
  | base (sd : StateDict)
  | ddpWrap (m : TorchModule)
  | dpWrap (m : TorchModule)
deriving DecidableEq

/-- Whether the module is an instance of `DistributedDataParallel` or
`DataParallel`. -/
def isDistWrapper : TorchModule → Bool
  | .base _ => false
  | .ddpWrap _ => true
  | .dpWrap _ => true

/-- `unwrap_model`: `while isinstance(model, options): model = model.module`. -/
def unwrap_model : TorchModule → TorchModule
  | .base sd => .base sd
  | .ddpWrap m => unwrap_model m
  | .dpWrap m => unwrap_model m

/-- `model.state_dict()`: wrapper containers prefix every key of the wrapped
module with `module.`. -/
def TorchModule.state_dict : TorchModule → StateDict
  | .base sd => sd
  | .ddpWrap m => m.state_dict.map (fun kv => ("module." ++ kv.1, kv.2))
  | .dpWrap m => m.state_dict.map (fun kv => ("module." ++ kv.1, kv.2))

/-! ## `save_checkpoint` -/

/-- The configuration fields `save_checkpoint` reads. -/
structure SaveCfg where
  use_deepspeed : Bool
  local_rank : Nat
  problem_type : String
deriving DecidableEq

/-- Python exceptions reachable from `save_checkpoint`: `os.path.join(None, ..)`
raises `TypeError`, reading the unbound local `checkpoint` raises `NameError`,
and a missing dict key raises `KeyError`. -/
inductive PyErr where
  | typeError
  | nameError
  | keyError (k : String)
deriving DecidableEq, Repr

/-- Observable outcome of `save_checkpoint`: the file paths written and the
value of the local variable `checkpoint` (its `model` entry) if it was bound. -/
structure SaveResult where
  writes : List String
  modelEntry : Option StateDict
deriving DecidableEq

/-- Modelled from the spec: `get_fp32_state_dict_from_zero_checkpoint` (an
external deepspeed routine) converts the gathered sharded checkpoint into a
single full-precision snapshot of the module parameters. -/
def toFp32SD (sd : StateDict) : StateDict :=
  sd.map (fun kv => (kv.1, { kv.2 with dtype := Dtype.float32 }))

/-- `save_checkpoint(model, path, cfg)`.  Under deepspeed a collective save
runs only when `path` is not `None` (so `checkpoint` stays unbound when it
is); otherwise rank 0 unwraps and binds `checkpoint`, writing it only when
`path` is present.  The classification-head branch then reads `checkpoint`
and joins `path` unconditionally. -/
def save_checkpoint (model : TorchModule) (path : Option String) (cfg : SaveCfg) :
    Except PyErr SaveResult :=
  let step :=
    if cfg.use_deepspeed then
      match path with
      | some p =>
        if cfg.local_rank = 0 then
          (([p ++ "/ds_checkpoint", p ++ "/checkpoint.pth"] : List String),
           some (toFp32SD model.state_dict))
        else ([p ++ "/ds_checkpoint"], none)
      | none => ([], none)
    else if cfg.local_rank = 0 then
      ((match path with
        | some p => [p ++ "/checkpoint.pth"]
        | none => []), some (unwrap_model model).state_dict)
    else ([], none)
  if cfg.local_rank = 0 ∧ cfg.problem_type = "text_causal_classification_modeling" then
    match step.2 with
    | none => .error .nameError
    | some sd =>
      match lookupSd sd "classification_head.weight" with
      | none => .error (.keyError "classification_head.weight")
      | some _ =>
        match path with
        | none => .error .typeError
        | some p => .ok ⟨step.1 ++ [p ++ "/classification_head.pth"], step.2⟩
  else .ok ⟨step.1, step.2⟩

/-! ## `update_backbone_config` -/

/-- The backbone configuration fields touched by `update_backbone_config`;
`none` in an `Option` field models a missing attribute (`hasattr` false) for
the dropout fields and `pretraining_tp`, and a `None` id for the token ids. -/
structure BackboneConfig where
  hidden_dropout_prob : Option ℚ
  attention_probs_dropout_prob : Option ℚ
  eos_token_id : Option Int
  pad_token_id : Option Int
  bos_token_id : Option Int
  init_device : Option String
  pretraining_tp : Option Nat
deriving DecidableEq, Repr

/-- The tokenizer ids `update_backbone_config` reconciles against. -/
structure TokenizerIds where
  eos_token_id : Option Int
  pad_token_id : Option Int
  bos_token_id : Option Int
deriving DecidableEq, Repr

/-- The experiment-config fields `update_backbone_config` reads or writes. -/
structure UpdateCfg where
  intermediate_dropout : ℚ
  llm_backbone : String
  device : String
  lora : Bool
deriving DecidableEq

/-- The warnings `update_backbone_config` can log. -/
inductive CfgWarning where
  | dropoutIgnored
  | eosMismatch
  | padMismatch
deriving DecidableEq, Repr

/-- The dropout section of `update_backbone_config`: copy the configured
intermediate dropout into whichever dropout attribute exists; when neither
exists and a positive dropout was requested, warn and zero the request. -/
def ubcDropoutStep (config : BackboneConfig) (cfg : UpdateCfg) :
    BackboneConfig × UpdateCfg × List CfgWarning :=
  let config := match config.hidden_dropout_prob with
    | some _ => { config with hidden_dropout_prob := some cfg.intermediate_dropout }
    | none => config
  let config := match config.attention_probs_dropout_prob with
    | some _ => { config with attention_probs_dropout_prob := some cfg.intermediate_dropout }
    | none => config
  if config.hidden_dropout_prob = none ∧ config.attention_probs_dropout_prob = none ∧
      0 < cfg.intermediate_dropout then
    (config, { cfg with intermediate_dropout := 0 }, [.dropoutIgnored])
  else (config, cfg, [])

/-- The token-id section of `update_backbone_config`: overwrite EOS and PAD
with a warning when they differ from the tokenizer, and BOS silently. -/
def ubcTokenStep (config : BackboneConfig) (tok : TokenizerIds) :
    BackboneConfig × List CfgWarning :=
  let (config, w₂) :=
    if config.eos_token_id ≠ tok.eos_token_id then
      ({ config with eos_token_id := tok.eos_token_id }, [CfgWarning.eosMismatch])
    else (config, [])
  let (config, w₃) :=
    if config.pad_token_id ≠ tok.pad_token_id then
      ({ config with pad_token_id := tok.pad_token_id }, [CfgWarning.padMismatch])
    else (config, [])
  let config :=
    if config.bos_token_id ≠ tok.bos_token_id then
      { config with bos_token_id := tok.bos_token_id }
    else config
  (config, w₂ ++ w₃)

/-- The trailing section of `update_backbone_config`: the mpt `init_device`
assignment and the lora `pretraining_tp` reset; neither touches a token id. -/
def ubcTailStep (config : BackboneConfig) (cfg : UpdateCfg) : BackboneConfig :=
  let config := if hasSubstr "mpt-" cfg.llm_backbone then
    { config with init_device := some cfg.device } else config
  if config.pretraining_tp.isSome ∧ cfg.lora then
    { config with pretraining_tp := some 1 } else config

/-- `update_backbone_config(config, cfg)`, with the tokenizer passed
explicitly (the code obtains it from `get_tokenizer(cfg)`).  Returns the
updated backbone config, the possibly-updated experiment config and the
logged warnings, in program order. -/
def update_backbone_config (config : BackboneConfig) (cfg : UpdateCfg) (tok : TokenizerIds) :
    BackboneConfig × UpdateCfg × List CfgWarning :=
  let s₁ := ubcDropoutStep config cfg
  let s₂ := ubcTokenStep s₁.1 tok
  (ubcTailStep s₂.1 s₁.2.1, s₁.2.1, s₁.2.2 ++ s₂.2)

/-! ## Well-formedness of keys for the message-parsing theorems -/

/-- No occurrence of the scanned pattern anywhere in `l`. -/
def NoOcc (l : List Char) : Prop :=
  ∀ i, ¬ patChars <+: l.drop i

/-- Bounded boolean check for `NoOcc`. -/
def noOccB (l : List Char) : Bool :=
  (List.range l.length).all (fun i => !(patChars.isPrefixOf (l.drop i)))

/-- A key is clean when it holds no colon, no newline and no occurrence of
the scanned pattern — true of every dotted-identifier parameter path. -/
def cleanKeyB (k : String) : Bool :=
  !(k.toList.contains ':') && !(k.toList.contains '\n') && noOccB k.toList

/-- The byte width per element the spec assigns to each dtype (1 for 8-bit
integers, 2 for 16-bit floats, 4 for float32 and for anything unrecognized). -/
def byteWidthSpec : Dtype → Nat
  | .int8 => 1
  | .uint8 => 1
  | .float16 => 2
  | .bfloat16 => 2
  | .float32 => 4
  | .float64 => 4

/-- The required byte count in the vocabulary of the spec: the sum over all
parameters of element count times byte width, doubled under deepspeed. -/
def requiredBytesSpec (params : List Tensor) (use_deepspeed : Bool) : Nat :=
  (if use_deepspeed then 2 else 1) *
    (params.map (fun p => p.numel * byteWidthSpec p.dtype)).sum

/-! # Theorems

Helper lemmas first, then one theorem per claim (with witnesses and
counterexamples where required).
-/

/-! ## Stopping-criterion engine lemmas -/

theorem vectorFoundInRow_infix_iff (v row : List Int) :
    vectorFoundInRow v row = true ↔ v <:+: row := by
  unfold vectorFoundInRow
  rw [List.any_eq_true]
  constructor
  · rintro ⟨i, hi, hp⟩
    rw [List.mem_range] at hi
    have hv : (row.drop i).take v.length = v := of_decide_eq_true hp
    refine ⟨row.take i, (row.drop i).drop v.length, ?_⟩
    have h2 : row.drop i = v ++ (row.drop i).drop v.length := by
      conv_lhs => rw [← List.take_append_drop v.length (row.drop i)]
      rw [hv]
    rw [List.append_assoc, ← h2, List.take_append_drop]
  · rintro ⟨s, t, hst⟩
    refine ⟨s.length, ?_, ?_⟩
    · rw [List.mem_range]
      have hlen := congrArg List.length hst
      simp only [List.length_append] at hlen
      omega
    · have hrow : row = s ++ (v ++ t) := by rw [← hst, List.append_assoc]
      rw [hrow, List.drop_left, List.take_left]
      exact decide_eq_true rfl

theorem numVector_eq_length_iff (v : List Int) (m : List (List Int)) :
    get_num_vector_found_in_matrix_rows v m = m.length ↔
      ∀ row ∈ m, vectorFoundInRow v row = true := by
  unfold get_num_vector_found_in_matrix_rows
  exact List.countP_eq_length

theorem indicator_sum_le (t : Int) (g : List (List Int)) :
    (g.map (fun row => if 0 < row.count t then (1 : ℚ) else 0)).sum ≤ (g.length : ℚ) := by
  induction g with
  | nil => simp
  | cons r g ih =>
    simp only [List.map_cons, List.sum_cons, List.length_cons, Nat.cast_succ]
    by_cases h : 0 < r.count t <;> simp only [h, if_true, if_false, if_pos, if_neg] <;> linarith

theorem indicator_sum_eq_iff (t : Int) (g : List (List Int)) :
    (g.map (fun row => if 0 < row.count t then (1 : ℚ) else 0)).sum = (g.length : ℚ) ↔
      ∀ row ∈ g, 0 < row.count t := by
  induction g with
  | nil => simp
  | cons r g ih =>
    simp only [List.map_cons, List.sum_cons, List.length_cons, Nat.cast_succ, List.mem_cons]
    by_cases h : 0 < r.count t
    · rw [if_pos h]
      constructor
      · intro he
        have : (g.map (fun row => if 0 < row.count t then (1 : ℚ) else 0)).sum = g.length := by
          linarith
        intro row hr
        rcases hr with rfl | hr
        · exact h
        · exact (ih.mp this) row hr
      · intro hall
        have : (g.map (fun row => if 0 < row.count t then (1 : ℚ) else 0)).sum = g.length :=
          ih.mpr (fun row hr => hall row (Or.inr hr))
        linarith
    · rw [if_neg h]
      have hle := indicator_sum_le t g
      constructor
      · intro he
        exfalso
        linarith
      · intro hall
        exact absurd (hall r (Or.inl rfl)) h

theorem scalar_path_iff (t : Int) (g : List (List Int)) (hg : g ≠ []) :
    should_stop g (.scalar t) = true ↔ ∀ row ∈ g, 0 < row.count t := by
  unfold should_stop floatMean
  rw [decide_eq_true_eq]
  have hlen : g.length ≠ 0 := by
    intro h
    exact hg (List.length_eq_zero.mp h)
  have hmap : (g.map (fun row => if 0 < row.count t then (1 : ℚ) else 0)).length = g.length :=
    List.length_map _ _
  rw [hmap, if_neg hlen]
  rw [Option.some_inj]
  have hq : (g.length : ℚ) ≠ 0 := Nat.cast_ne_zero.mpr hlen
  rw [div_eq_one_iff_eq hq]
  exact indicator_sum_eq_iff t g

theorem singleton_infix_iff (t : Int) (row : List Int) :
    [t] <:+: row ↔ t ∈ row := by
  constructor
  · rintro ⟨s, u, hsu⟩
    rw [← hsu]
    simp
  · intro h
    obtain ⟨s, u, rfl⟩ := List.append_of_mem h
    exact ⟨s, u, by simp⟩

theorem should_stop_iff_all_rows (w : StopWord) (g : List (List Int)) (hg : g ≠ []) :
    should_stop g w = true ↔ ∀ row ∈ g, w.seq <:+: row := by
  cases w with
  | scalar t =>
    rw [scalar_path_iff t g hg]
    unfold StopWord.seq
    constructor
    · intro h row hr
      exact (singleton_infix_iff t row).mpr (List.count_pos_iff.mp (h row hr))
    · intro h row hr
      exact List.count_pos_iff.mpr ((singleton_infix_iff t row).mp (h row hr))
  | vec v =>
    unfold should_stop
    rw [decide_eq_true_eq, numVector_eq_length_iff]
    unfold StopWord.seq
    constructor
    · intro h row hr
      exact (vectorFoundInRow_infix_iff v row).mp (h row hr)
    · intro h row hr
      exact (vectorFoundInRow_infix_iff v row).mpr (h row hr)

/-- C1 (amended): for every batch with at least one row, `__call__` fires iff
some stop word in the set occurs as a contiguous sub-sequence of the generated
part of every row (scalar and vector stop words alike); and with an empty
stop-word set it never fires.  (On a zero-row batch the scalar fast path
compares a NaN mean and reports false, so the claim holds only for non-empty
batches; see the counterexample.) -/
theorem stoppingCall_iff_exists_stopword_all_rows (S : List StopWord) (plen : Nat)
    (ids : List (List Int)) :
    (ids ≠ [] →
      (tokenStoppingCall S plen ids = true ↔
        ∃ w ∈ S, ∀ row ∈ ids, w.seq <:+: row.drop plen)) ∧
    tokenStoppingCall [] plen ids = false := by
  constructor
  · intro hne
    unfold tokenStoppingCall
    rw [List.any_eq_true]
    have hgne : ids.map (fun row => row.drop plen) ≠ [] := by
      intro h
      exact hne (List.map_eq_nil_iff.mp h)
    constructor
    · rintro ⟨w, hw, hss⟩
      refine ⟨w, hw, ?_⟩
      intro row hr
      exact (should_stop_iff_all_rows w _ hgne).mp hss _ (List.mem_map_of_mem _ hr)
    · rintro ⟨w, hw, hall⟩
      refine ⟨w, hw, ?_⟩
      rw [should_stop_iff_all_rows w _ hgne]
      intro row hr
      obtain ⟨r, hrmem, rfl⟩ := List.mem_map.mp hr
      exact hall r hrmem
  · rfl

/-- C1 witness: on the one-row batch `[[5]]` with the single vector stop word
`[5]`, the hypotheses hold and the engine fires. -/
theorem stoppingCall_iff_witness :
    ([[5]] : List (List Int)) ≠ [] ∧
      tokenStoppingCall [StopWord.vec [5]] 0 [[5]] = true := by
  refine ⟨by decide, ?_⟩
  exact ((stoppingCall_iff_exists_stopword_all_rows [StopWord.vec [5]] 0 [[5]]).1
    (by decide)).mpr ⟨StopWord.vec [5], by simp, by
      intro row hr
      simp only [List.mem_singleton] at hr
      subst hr
      exact List.infix_rfl⟩

/-- C1 counterexample: on the zero-row batch with the scalar stop word `0`,
the claimed condition (some stop word contained in every row, vacuously true)
holds, yet `__call__` returns false — the scalar path compares the NaN mean of
an empty tensor with 1. -/
theorem stoppingCall_zero_rows_cex :
    tokenStoppingCall [StopWord.scalar 0] 0 ([] : List (List Int)) = false ∧
      ∃ w ∈ [StopWord.scalar 0], ∀ row ∈ ([] : List (List Int)), w.seq <:+: row.drop 0 := by
  exact ⟨by decide, ⟨StopWord.scalar 0, by simp, by simp⟩⟩

/-- C6 (amended): on every matrix with at least one row, the scalar fast path
agrees with the general sliding-window path run on the same stop word as a
length-1 vector.  (They disagree on the zero-row matrix; see the
counterexample.) -/
theorem scalar_path_eq_vector_path (B : List (List Int)) (t : Int) (hB : B ≠ []) :
    should_stop B (.scalar t) = should_stop B (.vec [t]) := by
  have h1 := scalar_path_iff t B hB
  have h2 := should_stop_iff_all_rows (.vec [t]) B hB
  have h3 : (∀ row ∈ B, 0 < row.count t) ↔ ∀ row ∈ B, (StopWord.vec [t]).seq <:+: row := by
    unfold StopWord.seq
    constructor
    · intro h row hr
      exact (singleton_infix_iff t row).mpr (List.count_pos_iff.mp (h row hr))
    · intro h row hr
      exact List.count_pos_iff.mpr ((singleton_infix_iff t row).mp (h row hr))
  cases hs : should_stop B (.scalar t) <;> cases hv : should_stop B (.vec [t])
  · rfl
  · exact absurd (h1.mpr (h3.mpr (h2.mp hv))) (by rw [hs]; exact Bool.false_ne_true)
  · exact absurd (h2.mpr (h3.mp (h1.mp hs))) (by rw [hv]; exact Bool.false_ne_true)
  · rfl

/-- C6 witness: at the one-row matrix `[[5]]` and scalar `5` the two paths
agree. -/
theorem scalar_path_eq_vector_path_witness :
    should_stop ([[5]] : List (List Int)) (.scalar 5) = should_stop [[5]] (.vec [5]) :=
  scalar_path_eq_vector_path [[5]] 5 (by decide)

/-- C6 counterexample: on the zero-row matrix the scalar path returns false
(NaN mean) while the vector path returns true (zero rows found, zero rows
required), so the two paths are not equal on every matrix. -/
theorem scalar_path_zero_rows_cex :
    should_stop ([] : List (List Int)) (.scalar 5) = false ∧
      should_stop ([] : List (List Int)) (.vec [5]) = true := by
  decide

/-- C8 (confirmed): a zero-length stop word makes `__call__` return true on
every batch at every generation step — the empty window matches every row
trivially, and on a zero-row batch the vector path compares 0 with 0. -/
theorem empty_stopword_always_stops (S : List StopWord) (plen : Nat)
    (ids : List (List Int)) (hmem : StopWord.vec [] ∈ S) :
    tokenStoppingCall S plen ids = true := by
  unfold tokenStoppingCall
  rw [List.any_eq_true]
  refine ⟨StopWord.vec [], hmem, ?_⟩
  unfold should_stop
  rw [decide_eq_true_eq, numVector_eq_length_iff]
  intro row _
  unfold vectorFoundInRow
  rw [List.any_eq_true]
  refine ⟨0, ?_, by simp⟩
  rw [List.mem_range]
  simp

/-- C8 witness: with stop-word set `{[]}` the engine fires even on the
zero-row batch. -/
theorem empty_stopword_always_stops_witness :
    StopWord.vec [] ∈ [StopWord.vec []] ∧
      tokenStoppingCall [StopWord.vec []] 0 ([] : List (List Int)) = true :=
  ⟨by decide, empty_stopword_always_stops [StopWord.vec []] 0 [] (by decide)⟩

/-! ## `unwrap_model` (C10) -/

/-- C10 (confirmed): `unwrap_model` never returns a distributed wrapper, and
it is idempotent. -/
theorem unwrap_model_unwrapped_idempotent (m : TorchModule) :
    isDistWrapper (unwrap_model m) = false ∧
      unwrap_model (unwrap_model m) = unwrap_model m := by
  induction m with
  | base sd => exact ⟨rfl, rfl⟩
  | ddpWrap m ih => simpa [unwrap_model] using ih
  | dpWrap m ih => simpa [unwrap_model] using ih

/-! ## `save_checkpoint` with a `None` path (C9) -/

/-- C9 (confirmed): on the coordinating rank with the classification-head
task, `save_checkpoint` with `path=None` always raises: under deepspeed the
local `checkpoint` is never bound (`NameError`); otherwise the head save
reaches `os.path.join(None, ...)` (`TypeError`), or a `KeyError` first when
the head weight is absent. -/
theorem save_checkpoint_none_path_raises (model : TorchModule) (cfg : SaveCfg)
    (h0 : cfg.local_rank = 0)
    (hp : cfg.problem_type = "text_causal_classification_modeling") :
    ∃ e, save_checkpoint model none cfg = .error e := by
  unfold save_checkpoint
  cases hds : cfg.use_deepspeed
  · simp only [hds, Bool.false_eq_true, if_false, h0, if_pos rfl, hp, and_self, if_true]
    cases hl : lookupSd (unwrap_model model).state_dict "classification_head.weight"
    · exact ⟨.keyError "classification_head.weight", by simp [hl]⟩
    · exact ⟨.typeError, by simp [hl]⟩
  · simp only [hds, if_true, h0, hp, and_self]
    exact ⟨.nameError, rfl⟩

/-- C9 witness: a plain model without the head weight on rank 0 under the
standard strategy raises. -/
theorem save_checkpoint_none_path_raises_witness :
    ∃ e, save_checkpoint (.base []) none ⟨false, 0, "text_causal_classification_modeling"⟩ =
      .error e :=
  save_checkpoint_none_path_raises (.base []) ⟨false, 0, "text_causal_classification_modeling"⟩
    rfl rfl

/-! ## Disk-space preflight (C3) -/

theorem paramBytes_eq_spec (t : Tensor) : paramBytes t = t.numel * byteWidthSpec t.dtype := by
  unfold paramBytes byteWidthSpec
  cases t.dtype <;> rfl

theorem model_size_eq_spec (params : List Tensor) (ds : Bool) :
    model_size_in_bytes params ds = requiredBytesSpec params ds := by
  unfold model_size_in_bytes requiredBytesSpec
  have hm : params.map paramBytes = params.map (fun p => p.numel * byteWidthSpec p.dtype) :=
    List.map_congr_left (fun p _ => paramBytes_eq_spec p)
  cases ds <;> simp [hm] <;> ring

/-- C3 (amended): the preflight computes required bytes as the sum over all
parameters of element count times byte width (1 for 8-bit integers, 2 for
16-bit floats, 4 for float32 and unrecognized dtypes), doubled under the
deepspeed strategy; it raises iff required times 1.03 is greater than **or
equal to** the free bytes (the code tests `required * 1.03 < free` and raises
on the complement), and the raised error carries both figures. -/
theorem check_disk_space_boundary_spec (params : List Tensor) (free : Nat) (ds : Bool) :
    (isOkE (check_disk_space params free ds) = false ↔
      (free : ℚ) ≤ (requiredBytesSpec params ds : ℚ) * (103 / 100)) ∧
    ∀ err, check_disk_space params free ds = .error err →
      err = ⟨requiredBytesSpec params ds, free⟩ := by
  unfold check_disk_space
  rw [model_size_eq_spec]
  split
  · rename_i hlt
    constructor
    · simp only [isOkE, Bool.true_eq_false, false_iff, not_le]
      exact hlt
    · intro err herr
      exact absurd herr (by simp)
  · rename_i hge
    constructor
    · simp only [isOkE, true_iff]
      exact not_lt.mp hge
    · intro err herr
      simpa using herr.symm

/-- C3 witness: one float16 parameter of 3 elements (6 required bytes) with 7
free bytes passes the preflight, by the boundary characterisation. -/
theorem check_disk_space_boundary_spec_witness :
    isOkE (check_disk_space [⟨.float16, [3], "cpu"⟩] 7 false) = true := by
  have h := (check_disk_space_boundary_spec [⟨.float16, [3], "cpu"⟩] 7 false).1
  have hr : ¬ ((7 : Nat) : ℚ) ≤
      ((requiredBytesSpec [⟨.float16, [3], "cpu"⟩] false : Nat) : ℚ) * (103 / 100) := by
    simp only [requiredBytesSpec, byteWidthSpec, Tensor.numel, List.map_cons, List.map_nil,
      List.sum_cons, List.sum_nil, List.prod_cons, List.prod_nil]
    norm_num
  cases hb : isOkE (check_disk_space [⟨.float16, [3], "cpu"⟩] 7 false)
  · exact absurd (h.mp hb) hr
  · rfl

/-- C3 counterexample: with an empty parameter list and zero free bytes the
code raises although required times 1.03 is not greater than free (both are
zero) — the raise condition is `>=`, not the claimed strict `>`. -/
theorem check_disk_space_gt_cex :
    check_disk_space [] 0 false = .error ⟨0, 0⟩ ∧
      ¬ ((requiredBytesSpec [] false : ℚ) * (103 / 100) > (0 : ℚ)) := by
  constructor
  · unfold check_disk_space model_size_in_bytes
    norm_num
  · unfold requiredBytesSpec
    norm_num

/-! ## `update_backbone_config` (C7) -/

theorem ubcDropout_ids (config : BackboneConfig) (cfg : UpdateCfg) :
    (ubcDropoutStep config cfg).1.eos_token_id = config.eos_token_id ∧
    (ubcDropoutStep config cfg).1.pad_token_id = config.pad_token_id ∧
    (ubcDropoutStep config cfg).1.bos_token_id = config.bos_token_id := by
  obtain ⟨hd, ad, eos, pad, bos, initd, ptp⟩ := config
  cases hd <;> cases ad <;> simp [ubcDropoutStep] <;> split_ifs <;> simp

theorem ubcDropout_warn (config : BackboneConfig) (cfg : UpdateCfg) :
    (ubcDropoutStep config cfg).2.2 =
      if config.hidden_dropout_prob = none ∧ config.attention_probs_dropout_prob = none ∧
          0 < cfg.intermediate_dropout then [CfgWarning.dropoutIgnored] else [] := by
  obtain ⟨hd, ad, eos, pad, bos, initd, ptp⟩ := config
  cases hd <;> cases ad <;> simp [ubcDropoutStep] <;> split_ifs <;> simp

theorem ubcToken_ids (config : BackboneConfig) (tok : TokenizerIds) :
    (ubcTokenStep config tok).1.eos_token_id = tok.eos_token_id ∧
    (ubcTokenStep config tok).1.pad_token_id = tok.pad_token_id ∧
    (ubcTokenStep config tok).1.bos_token_id = tok.bos_token_id := by
  unfold ubcTokenStep
  by_cases he : config.eos_token_id = tok.eos_token_id <;>
    by_cases hp : config.pad_token_id = tok.pad_token_id <;>
    by_cases hb : config.bos_token_id = tok.bos_token_id <;>
    simp_all

theorem ubcToken_warn (config : BackboneConfig) (tok : TokenizerIds) :
    (ubcTokenStep config tok).2 =
      (if config.eos_token_id ≠ tok.eos_token_id then [CfgWarning.eosMismatch] else []) ++
      (if config.pad_token_id ≠ tok.pad_token_id then [CfgWarning.padMismatch] else []) := by
  unfold ubcTokenStep
  by_cases he : config.eos_token_id = tok.eos_token_id <;>
    by_cases hp : config.pad_token_id = tok.pad_token_id <;>
    simp_all

theorem ubcTail_ids (config : BackboneConfig) (cfg : UpdateCfg) :
    (ubcTailStep config cfg).eos_token_id = config.eos_token_id ∧
    (ubcTailStep config cfg).pad_token_id = config.pad_token_id ∧
    (ubcTailStep config cfg).bos_token_id = config.bos_token_id := by
  unfold ubcTailStep
  split_ifs <;> dsimp only <;> split_ifs <;> simp

/-- C7 (confirmed): after `update_backbone_config` the backbone EOS, PAD and
BOS token ids equal the tokenizer ids; a warning is logged for EOS and for PAD
exactly when the id differed, and the BOS overwrite logs nothing — the warning
list is exactly the dropout warning followed by the two mismatch warnings. -/
theorem update_backbone_config_token_ids (config : BackboneConfig) (cfg : UpdateCfg)
    (tok : TokenizerIds) :
    (update_backbone_config config cfg tok).1.eos_token_id = tok.eos_token_id ∧
    (update_backbone_config config cfg tok).1.pad_token_id = tok.pad_token_id ∧
    (update_backbone_config config cfg tok).1.bos_token_id = tok.bos_token_id ∧
    (update_backbone_config config cfg tok).2.2 =
      (if config.hidden_dropout_prob = none ∧ config.attention_probs_dropout_prob = none ∧
          0 < cfg.intermediate_dropout then [CfgWarning.dropoutIgnored] else []) ++
      (if config.eos_token_id ≠ tok.eos_token_id then [CfgWarning.eosMismatch] else []) ++
      (if config.pad_token_id ≠ tok.pad_token_id then [CfgWarning.padMismatch] else []) := by
  unfold update_backbone_config
  dsimp only
  refine ⟨?_, ?_, ?_, ?_⟩
  · rw [(ubcTail_ids _ _).1, (ubcToken_ids _ _).1]
  · rw [(ubcTail_ids _ _).2.1, (ubcToken_ids _ _).2.1]
  · rw [(ubcTail_ids _ _).2.2, (ubcToken_ids _ _).2.2]
  · rw [ubcDropout_warn, ubcToken_warn]
    obtain ⟨he, hp, hb⟩ := ubcDropout_ids config cfg
    rw [he, hp, List.append_assoc]

/-! ## Scanner lemmas: `grabKey`, `findSM` and pattern occurrences -/

theorem grabKey_append (k rest : List Char) (hc : ':' ∉ k) (hn : '\n' ∉ k) :
    grabKey (k ++ ':' :: rest) = some (k, rest) := by
  induction k with
  | nil => simp [grabKey]
  | cons c k ih =>
    simp only [List.mem_cons, not_or] at hc hn
    simp only [List.cons_append, grabKey]
    rw [if_neg (fun h => hc.1 h.symm), if_neg (fun h => hn.1 h.symm)]
    simp only [List.append_eq]
    rw [ih hc.2 hn.2]

theorem grabKey_shape : ∀ l k r, grabKey l = some (k, r) → l = k ++ ':' :: r := by
  intro l
  induction l with
  | nil => intro k r h; simp [grabKey] at h
  | cons c rest ih =>
    intro k r h
    simp only [grabKey] at h
    by_cases hc : c = ':'
    · rw [if_pos hc] at h
      simp only [Option.some.injEq, Prod.mk.injEq] at h
      obtain ⟨hk, hr⟩ := h
      subst hk
      subst hr
      simp [hc]
    · rw [if_neg hc] at h
      by_cases hn : c = '\n'
      · rw [if_pos hn] at h
        exact absurd h (by simp)
      · rw [if_neg hn] at h
        cases hg : grabKey rest with
        | none => rw [hg] at h; simp at h
        | some p =>
          obtain ⟨k', r'⟩ := p
          rw [hg] at h
          simp only [Option.some.injEq, Prod.mk.injEq] at h
          obtain ⟨hk, hr⟩ := h
          subst hk
          subst hr
          rw [ih k' r' hg]
          rfl

theorem patChars_length : patChars.length = 18 := by decide

theorem grabKey_length_le (l k r : List Char) (hg : grabKey l = some (k, r)) :
    r.length + 1 ≤ l.length := by
  have h := congrArg List.length (grabKey_shape l k r hg)
  simp only [List.length_append, List.length_cons] at h
  omega

theorem findSMAux_congr : ∀ fuel fuel' l, l.length ≤ fuel → l.length ≤ fuel' →
    findSMAux fuel l = findSMAux fuel' l := by
  intro fuel
  induction fuel with
  | zero =>
    intro fuel' l h _
    have hl : l = [] := List.length_eq_zero.mp (Nat.le_zero.mp h)
    subst hl
    cases fuel' <;> rfl
  | succ fuel ih =>
    intro fuel' l h h'
    cases l with
    | nil => cases fuel' <;> rfl
    | cons c rest =>
      cases fuel' with
      | zero => simp at h'
      | succ fuel' =>
        simp only [findSMAux]
        simp only [List.length_cons] at h h'
        by_cases hp : patChars.isPrefixOf (c :: rest) = true
        · rw [if_pos hp, if_pos hp]
          cases hg : grabKey ((c :: rest).drop patChars.length) with
          | none => exact ih fuel' rest (by omega) (by omega)
          | some p =>
            obtain ⟨k, r⟩ := p
            have hlen : r.length + 1 ≤ (c :: rest).length - patChars.length := by
              have := grabKey_length_le _ _ _ hg
              simpa [List.length_drop] using this
            simp only [List.length_cons, patChars_length] at hlen
            dsimp only
            rw [ih fuel' r (by omega) (by omega)]
        · rw [if_neg hp, if_neg hp]
          exact ih fuel' rest (by omega) (by omega)

theorem findSM_skip1 (c : Char) (rest : List Char)
    (hp : patChars.isPrefixOf (c :: rest) = false) :
    findSM (c :: rest) = findSM rest := by
  unfold findSM
  simp only [List.length_cons, findSMAux, hp, Bool.false_eq_true, if_false]

theorem findSM_match (c : Char) (rest k r : List Char)
    (hp : patChars.isPrefixOf (c :: rest) = true)
    (hg : grabKey ((c :: rest).drop patChars.length) = some (k, r)) :
    findSM (c :: rest) = k :: findSM r := by
  unfold findSM
  simp only [List.length_cons, findSMAux, hp, if_true, hg]
  have hlen : r.length + 1 ≤ (c :: rest).length - patChars.length := by
    have := grabKey_length_le _ _ _ hg
    simpa [List.length_drop] using this
  simp only [List.length_cons, patChars_length] at hlen
  rw [findSMAux_congr rest.length r.length r (by omega) le_rfl]

/-! ## Occurrence (`NoOcc`) machinery -/

theorem noOcc_short (l : List Char) (h : l.length < patChars.length) : NoOcc l := by
  intro i hp
  have h1 := hp.length_le
  have h2 : (l.drop i).length ≤ l.length := by
    simp only [List.length_drop]
    omega
  omega

theorem noOcc_tail (c : Char) (rest : List Char) (h : NoOcc (c :: rest)) : NoOcc rest := by
  intro i hp
  have := h (i + 1)
  rw [List.drop_succ_cons] at this
  exact this hp

theorem noOccB_iff (l : List Char) : noOccB l = true ↔ NoOcc l := by
  unfold noOccB NoOcc
  rw [List.all_eq_true]
  constructor
  · intro h i hp
    by_cases hi : i < l.length
    · have hb := h i (List.mem_range.mpr hi)
      simp only [Bool.not_eq_true', List.isPrefixOf_iff_prefix] at hb
      rw [← List.isPrefixOf_iff_prefix] at hp
      rw [hp] at hb
      exact Bool.true_eq_false ▸ hb
    · have hnil : l.drop i = [] := List.drop_eq_nil_of_le (by omega)
      rw [hnil] at hp
      have := hp.length_le
      rw [patChars_length] at this
      simp at this
  · intro h i _
    simp only [Bool.not_eq_true']
    by_cases hb : patChars.isPrefixOf (l.drop i) = true
    · exact absurd (List.isPrefixOf_iff_prefix.mp hb) (h i)
    · exact Bool.not_eq_true _ ▸ hb

theorem findSM_of_noOcc (l : List Char) (h : NoOcc l) : findSM l = [] := by
  induction l with
  | nil => rfl
  | cons c rest ih =>
    have hp : patChars.isPrefixOf (c :: rest) = false := by
      by_cases hb : patChars.isPrefixOf (c :: rest) = true
      · exact absurd (List.isPrefixOf_iff_prefix.mp hb) (by simpa using h 0)
      · exact Bool.not_eq_true _ ▸ hb
    rw [findSM_skip1 c rest hp]
    exact ih (noOcc_tail c rest h)

theorem occ_inside_left (a b : List Char) (i : Nat)
    (hp : patChars <+: (a ++ b).drop i) (hfit : i + patChars.length ≤ a.length) :
    patChars <+: a.drop i := by
  have hia : i ≤ a.length := by omega
  have hd : (a ++ b).drop i = a.drop i ++ b := by
    rw [List.drop_append_eq_append_drop, Nat.sub_eq_zero_of_le hia, List.drop_zero]
  rw [hd] at hp
  rw [patChars_length] at hfit
  rw [List.prefix_iff_eq_take] at hp ⊢
  simp only [patChars_length] at hp ⊢
  rw [hp, List.take_append_eq_append_take]
  have hzero : 18 - (a.drop i).length = 0 := by
    simp only [List.length_drop]
    omega
  rw [hzero, List.take_zero, List.append_nil]

theorem occ_char_mem (a b : List Char) (i j : Nat)
    (hp : patChars <+: (a ++ b).drop i) (hj : j < patChars.length) (ch : Char)
    (hch : (a ++ b)[i + j]? = some ch) : ch ∈ patChars := by
  obtain ⟨t, ht⟩ := hp
  rw [← List.getElem?_drop, ← ht, List.getElem?_append_left hj] at hch
  obtain ⟨hlt, hEq⟩ := List.getElem?_eq_some.mp hch
  rw [← hEq]
  exact List.getElem_mem hlt

theorem span_bound_of_head (a b' : List Char) (ch : Char) (hch : ch ∉ patChars)
    (ha : NoOcc a) : ∀ i, i < a.length → ¬ patChars <+: (a ++ ch :: b').drop i := by
  intro i hia hp
  by_cases hfit : i + patChars.length ≤ a.length
  · exact ha i (occ_inside_left a (ch :: b') i hp hfit)
  · push_neg at hfit
    have hj : a.length - i < patChars.length := by omega
    have hidx : (a ++ ch :: b')[i + (a.length - i)]? = some ch := by
      have h2 : i + (a.length - i) = a.length := by omega
      rw [h2, List.getElem?_append_right le_rfl]
      simp
    exact hch (occ_char_mem a (ch :: b') i (a.length - i) hp hj ch hidx)

theorem span_bound_of_last (u b : List Char) (ch : Char) (hch : ch ∉ patChars)
    (ha : NoOcc (u ++ [ch])) :
    ∀ i, i < (u ++ [ch]).length → ¬ patChars <+: ((u ++ [ch]) ++ b).drop i := by
  intro i hia hp
  by_cases hfit : i + patChars.length ≤ (u ++ [ch]).length
  · exact ha i (occ_inside_left (u ++ [ch]) b i hp hfit)
  · push_neg at hfit
    simp only [List.length_append, List.length_singleton] at hia hfit
    have hiu : i ≤ u.length := by omega
    have hj : u.length - i < patChars.length := by omega
    have hidx : ((u ++ [ch]) ++ b)[i + (u.length - i)]? = some ch := by
      have h2 : i + (u.length - i) = u.length := by omega
      rw [h2, List.getElem?_append_left (by simp), List.getElem?_append_right le_rfl]
      simp
    exact hch (occ_char_mem (u ++ [ch]) b i (u.length - i) hp hj ch hidx)

theorem noOcc_append_of_head (a b' : List Char) (ch : Char) (hch : ch ∉ patChars)
    (ha : NoOcc a) (hb : NoOcc (ch :: b')) : NoOcc (a ++ ch :: b') := by
  intro i hp
  by_cases hia : i < a.length
  · exact span_bound_of_head a b' ch hch ha i hia hp
  · push_neg at hia
    have hd : (a ++ ch :: b').drop i = (ch :: b').drop (i - a.length) := by
      rw [List.drop_append_eq_append_drop, List.drop_eq_nil_of_le hia, List.nil_append]
    rw [hd] at hp
    exact hb _ hp

theorem noOcc_append_of_last (u b : List Char) (ch : Char) (hch : ch ∉ patChars)
    (ha : NoOcc (u ++ [ch])) (hb : NoOcc b) : NoOcc ((u ++ [ch]) ++ b) := by
  intro i hp
  by_cases hia : i < (u ++ [ch]).length
  · exact span_bound_of_last u b ch hch ha i hia hp
  · push_neg at hia
    have hd : ((u ++ [ch]) ++ b).drop i = b.drop (i - (u ++ [ch]).length) := by
      rw [List.drop_append_eq_append_drop, List.drop_eq_nil_of_le hia, List.nil_append]
    rw [hd] at hp
    exact hb _ hp

theorem findSM_append_of_bound (a t : List Char)
    (h : ∀ i, i < a.length → ¬ patChars <+: (a ++ t).drop i) :
    findSM (a ++ t) = findSM t := by
  induction a with
  | nil => rfl
  | cons c a' ih =>
    have h0 : patChars.isPrefixOf (c :: (a' ++ t)) = false := by
      by_cases hb : patChars.isPrefixOf (c :: (a' ++ t)) = true
      · exact absurd (List.isPrefixOf_iff_prefix.mp hb)
          (by simpa using h 0 (by simp))
      · exact Bool.not_eq_true _ ▸ hb
    rw [List.cons_append, findSM_skip1 c (a' ++ t) h0]
    refine ih ?_
    intro i hi hp
    have := h (i + 1) (by simpa using Nat.succ_lt_succ hi)
    rw [List.cons_append, List.drop_succ_cons] at this
    exact this hp

theorem findSM_skip_block (u t : List Char) (ch : Char) (hch : ch ∉ patChars)
    (ha : NoOcc (u ++ [ch])) : findSM ((u ++ [ch]) ++ t) = findSM t :=
  findSM_append_of_bound (u ++ [ch]) t (span_bound_of_last u t ch hch ha)

theorem noOcc_cons (ch : Char) (y : List Char) (hch : ch ∉ patChars) (hy : NoOcc y) :
    NoOcc (ch :: y) := by
  have := noOcc_append_of_last [] y ch hch
    (noOcc_short _ (by simp [patChars_length])) hy
  simpa using this

theorem quotedKeys_head (ks : List String) (h : ks ≠ []) :
    ∃ b', quotedKeysChars ks = '"' :: b' := by
  cases ks with
  | nil => contradiction
  | cons k ks => cases ks <;> exact ⟨_, rfl⟩

theorem noOcc_quotedKeys (ks : List String) (h : ∀ k ∈ ks, NoOcc k.toList) :
    NoOcc (quotedKeysChars ks) := by
  induction ks with
  | nil => exact noOcc_short _ (by decide)
  | cons k ks ih =>
    have hk : NoOcc ('"' :: k.toList) := noOcc_cons '"' k.toList (by decide) (h k (by simp))
    cases ks with
    | nil =>
      have h2 : NoOcc (('"' :: k.toList) ++ '"' :: []) :=
        noOcc_append_of_head ('"' :: k.toList) [] '"' (by decide) hk
          (noOcc_short _ (by decide))
      simpa [quotedKeysChars] using h2
    | cons k' ks' =>
      obtain ⟨b', hb'⟩ := quotedKeys_head (k' :: ks') (by simp)
      have hrest : NoOcc (quotedKeysChars (k' :: ks')) :=
        ih (fun x hx => h x (List.mem_cons_of_mem _ hx))
      have hsp : NoOcc (' ' :: quotedKeysChars (k' :: ks')) := by
        rw [hb']
        have := noOcc_append_of_head [' '] b' '"' (by decide) (noOcc_short _ (by decide))
          (hb' ▸ hrest)
        simpa using this
      have hcm : NoOcc (',' :: ' ' :: quotedKeysChars (k' :: ks')) :=
        noOcc_cons ',' _ (by decide) hsp
      have hq2 : NoOcc ('"' :: ',' :: ' ' :: quotedKeysChars (k' :: ks')) :=
        noOcc_cons '"' _ (by decide) hcm
      have hall : NoOcc (('"' :: k.toList) ++ '"' :: ',' :: ' ' :: quotedKeysChars (k' :: ks')) :=
        noOcc_append_of_head ('"' :: k.toList) _ '"' (by decide) hk hq2
      simpa [quotedKeysChars] using hall

theorem noOcc_keysLine (p : List Char) (hpOcc : NoOcc p) (ks : List String)
    (h : ∀ k ∈ ks, NoOcc k.toList) :
    NoOcc (p ++ quotedKeysChars ks ++ ". ".toList) := by
  have hdot : (". ".toList : List Char) = '.' :: [' '] := by decide
  cases ks with
  | nil =>
    have h1 : NoOcc (p ++ '.' :: [' ']) :=
      noOcc_append_of_head p [' '] '.' (by decide) hpOcc (noOcc_short _ (by decide))
    simpa [quotedKeysChars, hdot] using h1
  | cons k ks' =>
    obtain ⟨b', hb'⟩ := quotedKeys_head (k :: ks') (by simp)
    have hq : NoOcc (quotedKeysChars (k :: ks')) := noOcc_quotedKeys _ h
    have h1 : NoOcc (quotedKeysChars (k :: ks') ++ '.' :: [' ']) :=
      noOcc_append_of_head _ [' '] '.' (by decide) hq (noOcc_short _ (by decide))
    have h2 : NoOcc (p ++ '"' :: (b' ++ '.' :: [' '])) := by
      refine noOcc_append_of_head p (b' ++ '.' :: [' ']) '"' (by decide) hpOcc ?_
      rw [← List.cons_append, ← hb']
      exact h1
    rw [hdot, List.append_assoc, hb']
    simpa using h2

theorem noOcc_missingLine (ks : List String) (h : ∀ k ∈ ks, NoOcc k.toList) :
    NoOcc (missingLineChars ks) := by
  unfold missingLineChars
  exact noOcc_keysLine _ ((noOccB_iff _).mp (by decide)) ks h

theorem noOcc_unexpectedLine (ks : List String) (h : ∀ k ∈ ks, NoOcc k.toList) :
    NoOcc (unexpectedLineChars ks) := by
  unfold unexpectedLineChars
  exact noOcc_keysLine _ ((noOccB_iff _).mp (by decide)) ks h

theorem noOcc_mismatchTail : NoOcc mismatchTailChars := (noOccB_iff _).mp (by decide)

theorem mismatchLine_shape (k : String) :
    mismatchLineChars k = patChars ++ (k.toList ++ ':' :: mismatchTailChars) := by
  unfold mismatchLineChars
  rw [List.append_assoc]

theorem findSM_patLine (k : String) (X : List Char) (hc : ':' ∉ k.toList)
    (hn : '\n' ∉ k.toList) :
    findSM (patChars ++ (k.toList ++ ':' :: X)) = k.toList :: findSM X := by
  have hpat : patChars = 's' :: patChars.tail := by decide
  have key := findSM_match 's' (patChars.tail ++ (k.toList ++ ':' :: X)) k.toList X
    (by rw [← List.cons_append, ← hpat]
        exact List.isPrefixOf_iff_prefix.mpr (List.prefix_append _ _))
    (by rw [← List.cons_append, ← hpat, List.drop_left]
        exact grabKey_append k.toList X hc hn)
  rw [← List.cons_append, ← hpat] at key
  exact key

theorem findSM_skipLine (m X : List Char) (hm : NoOcc m) :
    findSM (m ++ (sepNT ++ X)) = findSM X := by
  have hsh : m ++ sepNT = (m ++ ['\n']) ++ ['\t'] := by simp [sepNT]
  have hno : NoOcc (m ++ sepNT) := by
    have h2 : NoOcc ('\n' :: ['\t']) := noOcc_short _ (by decide)
    exact noOcc_append_of_head m ['\t'] '\n' (by decide) hm h2
  have hb := findSM_skip_block (m ++ ['\n']) X '\t' (by decide) (by rw [← hsh]; exact hno)
  rw [← hsh] at hb
  rw [← List.append_assoc]
  exact hb

theorem findSM_mismatchJoin (ks : List String)
    (h : ∀ k ∈ ks, ':' ∉ k.toList ∧ '\n' ∉ k.toList) :
    findSM (joinMsgs (ks.map mismatchLineChars)) = ks.map String.toList := by
  induction ks with
  | nil => rfl
  | cons k ks ih =>
    cases hks : ks with
    | nil =>
      simp only [List.map_cons, List.map_nil, joinMsgs]
      rw [mismatchLine_shape, findSM_patLine k _ (h k (by simp)).1 (h k (by simp)).2]
      rw [findSM_of_noOcc _ noOcc_mismatchTail]
    | cons k' ks' =>
      subst hks
      have hJ : joinMsgs ((k :: k' :: ks').map mismatchLineChars) =
          mismatchLineChars k ++ sepNT ++ joinMsgs ((k' :: ks').map mismatchLineChars) := rfl
      rw [hJ]
      set J := joinMsgs ((k' :: ks').map mismatchLineChars) with hJdef
      have hassoc : mismatchLineChars k ++ sepNT ++ J =
          patChars ++ (k.toList ++ ':' :: (mismatchTailChars ++ (sepNT ++ J))) := by
        unfold mismatchLineChars
        simp [List.append_assoc]
      rw [hassoc, findSM_patLine k _ (h k (by simp)).1 (h k (by simp)).2]
      rw [findSM_skipLine mismatchTailChars J noOcc_mismatchTail]
      rw [ih (fun x hx => h x (List.mem_cons_of_mem _ hx))]
      rfl

theorem findSM_header (X : List Char) : findSM (headerChars ++ X) = findSM X := by
  have hu : headerChars = "Error(s) in loading state_dict for Model:\n".toList ++ ['\t'] := by
    decide
  have hb := findSM_skip_block "Error(s) in loading state_dict for Model:\n".toList X '\t'
    (by decide) (by rw [← hu]; exact (noOccB_iff _).mp (by decide))
  rw [← hu] at hb
  exact hb

theorem findSM_join_cons_skip (m : List Char) (L : List (List Char)) (hm : NoOcc m) :
    findSM (joinMsgs (m :: L)) = findSM (joinMsgs L) := by
  cases L with
  | nil =>
    show findSM m = findSM []
    rw [findSM_of_noOcc m hm]
    rfl
  | cons l L' =>
    show findSM (m ++ sepNT ++ joinMsgs (l :: L')) = _
    rw [List.append_assoc]
    exact findSM_skipLine m (joinMsgs (l :: L')) hm

theorem findSM_loadErrMsgs (M W : StateDict)
    (hm : ∀ k ∈ sizeMismatchKeys M W, ':' ∉ k.toList ∧ '\n' ∉ k.toList)
    (hmiss : ∀ k ∈ missingKeys M W, NoOcc k.toList)
    (hunexp : ∀ k ∈ unexpectedKeys M W, NoOcc k.toList) :
    findSM (headerChars ++ joinMsgs (loadErrMsgs M W true)) =
      (sizeMismatchKeys M W).map String.toList := by
  rw [findSM_header]
  unfold loadErrMsgs
  by_cases h1 : (missingKeys M W).isEmpty <;> by_cases h2 : (unexpectedKeys M W).isEmpty <;>
    simp only [h1, h2, if_true, if_pos, if_neg, Bool.false_eq_true, if_false, List.nil_append,
      List.append_nil, List.cons_append, List.singleton_append, ite_true, ite_false,
      Bool.not_eq_true] <;>
    first
      | exact findSM_mismatchJoin _ hm
      | (rw [findSM_join_cons_skip _ _ (noOcc_missingLine _ hmiss)]
         exact findSM_mismatchJoin _ hm)
      | (rw [findSM_join_cons_skip _ _ (noOcc_unexpectedLine _ hunexp)]
         exact findSM_mismatchJoin _ hm)
      | (rw [findSM_join_cons_skip _ _ (noOcc_missingLine _ hmiss),
             findSM_join_cons_skip _ _ (noOcc_unexpectedLine _ hunexp)]
         exact findSM_mismatchJoin _ hm)

/-! ## From `loadStateDict` failures to the recovered key list -/

theorem loadStateDict_error_msg (M W : StateDict) (strict : Bool) (e : String)
    (h : loadStateDict M W strict = .error e) :
    e = String.mk (headerChars ++ joinMsgs (loadErrMsgs M W strict)) := by
  unfold loadStateDict at h
  by_cases hE : (loadErrMsgs M W strict).isEmpty
  · rw [if_pos hE] at h
    exact absurd h (by simp)
  · rw [if_neg hE] at h
    exact (Except.error.inj h).symm

theorem string_mk_toList (l : List Char) : (String.mk l).toList = l := rfl

theorem string_eta (s : String) : String.mk s.toList = s := rfl

theorem cleanKeyB_spec (k : String) (h : cleanKeyB k = true) :
    (':' ∉ k.toList ∧ '\n' ∉ k.toList) ∧ NoOcc k.toList := by
  unfold cleanKeyB at h
  simp only [Bool.and_eq_true, Bool.not_eq_true'] at h
  obtain ⟨⟨hc, hn⟩, ho⟩ := h
  refine ⟨⟨?_, ?_⟩, (noOccB_iff _).mp ho⟩
  · intro hmem
    simp at hc
    exact hc hmem
  · intro hmem
    simp at hn
    exact hn hmem

theorem sizeMismatchKeys_subset (M W : StateDict) (k : String)
    (h : k ∈ sizeMismatchKeys M W) : k ∈ keysOf W := by
  unfold sizeMismatchKeys at h
  obtain ⟨kv, hkv, hf⟩ := List.mem_filterMap.mp h
  cases hl : lookupSd M kv.1 with
  | none => rw [hl] at hf; simp at hf
  | some mv =>
    rw [hl] at hf
    dsimp only at hf
    by_cases hs : kv.2.shape ≠ mv.shape
    · rw [if_pos hs] at hf
      obtain rfl := Option.some_inj.mp hf
      exact List.mem_map_of_mem _ hkv
    · rw [if_neg hs] at hf
      simp at hf

theorem missingKeys_subset (M W : StateDict) (k : String)
    (h : k ∈ missingKeys M W) : k ∈ keysOf M :=
  (List.mem_filter.mp h).1

theorem unexpectedKeys_subset (M W : StateDict) (k : String)
    (h : k ∈ unexpectedKeys M W) : k ∈ keysOf W :=
  (List.mem_filter.mp h).1

theorem findAllSizeMismatch_of_error (M W : StateDict) (e : String)
    (hwfM : ∀ k ∈ keysOf M, cleanKeyB k = true)
    (hwfW : ∀ k ∈ keysOf W, cleanKeyB k = true)
    (h : loadStateDict M W true = .error e) :
    findAllSizeMismatch e = sizeMismatchKeys M W := by
  rw [loadStateDict_error_msg M W true e h]
  unfold findAllSizeMismatch
  rw [string_mk_toList]
  rw [findSM_loadErrMsgs M W
    (fun k hk => (cleanKeyB_spec k (hwfW k (sizeMismatchKeys_subset M W k hk))).1)
    (fun k hk => (cleanKeyB_spec k (hwfM k (missingKeys_subset M W k hk))).2)
    (fun k hk => (cleanKeyB_spec k (hwfW k (unexpectedKeys_subset M W k hk))).2)]
  rw [List.map_map]
  have hcomp : (String.mk ∘ String.toList) = id := funext (fun s => string_eta s)
  rw [hcomp, List.map_id]

/-! ## Strict-load propagation (C2) -/

/-- C2 (amended): when the caller demands strict loading **and** the dtype
filtering dropped no entries (so strictness is not silently downgraded by the
`len(model_weights) != orig_num_items` check), a failed load attempt is
re-raised rather than recovered with a partial non-strict load. -/
theorem load_strict_propagates (M : StateDict) (d dev : String) (rank : Nat)
    (sd mw₁ : StateDict) (e : String)
    (hf : filterWeights d M sd = .ok mw₁)
    (hlen : mw₁.length = sd.length)
    (hfail : loadStateDict M (deviceFix d dev (renameKeys mw₁)) true = .error e) :
    load_model_weights M d dev rank sd true = .error (.loadError e) := by
  unfold load_model_weights
  rw [hf]
  dsimp only
  rw [hlen]
  simp only [ne_eq, not_true_eq_false, if_false, ite_false, ite_self]
  rw [hfail]
  simp

/-- C2 witness: live model with `w` of shape `[2]`, snapshot with `w` of
shape `[3]`, caller strict: the size-mismatch failure propagates. -/
theorem load_strict_propagates_witness :
    load_model_weights [("w", ⟨Dtype.float32, [2], "cpu"⟩)] "float32" "cpu" 0
        [("w", ⟨Dtype.float32, [3], "cpu"⟩)] true =
      .error (.loadError (String.mk (headerChars ++ joinMsgs [mismatchLineChars "w"]))) :=
  load_strict_propagates [("w", ⟨Dtype.float32, [2], "cpu"⟩)] "float32" "cpu" 0
    [("w", ⟨Dtype.float32, [3], "cpu"⟩)] [("w", ⟨Dtype.float32, [3], "cpu"⟩)]
    (String.mk (headerChars ++ joinMsgs [mismatchLineChars "w"]))
    (by decide) (by decide) (by decide)

/-- C2 counterexample: with `strict=true`, a float32 target and a snapshot
holding only the quantization-marker key `a.SCB`, the filter drops the key,
strictness is silently downgraded, the strict attempt fails (the live key `w`
is missing) — and yet the call recovers non-strictly and returns success
instead of propagating the failure. -/
theorem load_strict_not_propagated_cex :
    filterWeights "float32" [("w", ⟨Dtype.float32, [2], "cpu"⟩)]
        [("a.SCB", ⟨Dtype.float32, [2], "cpu"⟩)] = .ok [] ∧
    isOkE (loadStateDict [("w", ⟨Dtype.float32, [2], "cpu"⟩)] [] true) = false ∧
    load_model_weights [("w", ⟨Dtype.float32, [2], "cpu"⟩)] "float32" "cpu" 0
        [("a.SCB", ⟨Dtype.float32, [2], "cpu"⟩)] true = .ok ⟨[], true, true⟩ := by
  refine ⟨by decide, by decide, ?_⟩
  decide

/-! ## The fallback pops exactly the reported keys (C4) -/

/-- C4 (amended): whenever the non-strict fallback of `load_model_weights`
runs (the effective strictness ended up false and the strict attempt failed),
and every live-model and attempted-snapshot key is clean — contains no colon,
no newline and no occurrence of the literal text `size mismatch for ` — then
the set of keys removed before the retry is exactly the set of keys reported
as size mismatches in the failure message: the parsed list equals the actual
size-mismatch key list, and the retried snapshot is the attempted snapshot
minus exactly those keys. -/
theorem fallback_removes_exactly_reported (M : StateDict) (d dev : String) (rank : Nat)
    (sd mw₁ : StateDict) (strict : Bool) (e : String)
    (hf : filterWeights d M sd = .ok mw₁)
    (hstrict : (if mw₁.length ≠ sd.length then false else strict) = false)
    (hfail : loadStateDict M (deviceFix d dev (renameKeys mw₁)) true = .error e)
    (hwfM : ∀ k ∈ keysOf M, cleanKeyB k = true)
    (hwfW : ∀ k ∈ keysOf (deviceFix d dev (renameKeys mw₁)), cleanKeyB k = true) :
    findAllSizeMismatch e = sizeMismatchKeys M (deviceFix d dev (renameKeys mw₁)) ∧
    load_model_weights M d dev rank sd strict =
      (match loadStateDict M ((deviceFix d dev (renameKeys mw₁)).filter
          (fun kv => !((sizeMismatchKeys M (deviceFix d dev (renameKeys mw₁))).contains kv.1)))
          false with
       | .ok _ => .ok ⟨(deviceFix d dev (renameKeys mw₁)).filter
            (fun kv => !((sizeMismatchKeys M (deviceFix d dev (renameKeys mw₁))).contains kv.1)),
            true, rank == 0⟩
       | .error e₂ => .error (.loadError e₂)) := by
  have hparse := findAllSizeMismatch_of_error M (deviceFix d dev (renameKeys mw₁)) e
    hwfM hwfW hfail
  refine ⟨hparse, ?_⟩
  unfold load_model_weights
  rw [hf]
  dsimp only
  rw [hstrict, hfail]
  dsimp only
  rw [hparse]
  simp

set_option maxRecDepth 10000 in
/-- C4 witness: a clean one-key mismatch under non-strict loading; the parsed
removal list is exactly the mismatch list and the retry succeeds on the
emptied snapshot. -/
theorem fallback_removes_exactly_reported_witness :
    findAllSizeMismatch (String.mk (headerChars ++ joinMsgs [mismatchLineChars "w"])) =
      sizeMismatchKeys [("w", ⟨Dtype.float32, [2], "cpu"⟩)] [("w", ⟨Dtype.float32, [3], "cpu"⟩)] ∧
    load_model_weights [("w", ⟨Dtype.float32, [2], "cpu"⟩)] "float32" "cpu" 0
        [("w", ⟨Dtype.float32, [3], "cpu"⟩)] false =
      (match loadStateDict [("w", ⟨Dtype.float32, [2], "cpu"⟩)]
          (([("w", ⟨Dtype.float32, [3], "cpu"⟩)] : StateDict).filter
            (fun kv => !((sizeMismatchKeys [("w", ⟨Dtype.float32, [2], "cpu"⟩)]
              [("w", ⟨Dtype.float32, [3], "cpu"⟩)]).contains kv.1))) false with
       | .ok _ => .ok ⟨(([("w", ⟨Dtype.float32, [3], "cpu"⟩)] : StateDict).filter
            (fun kv => !((sizeMismatchKeys [("w", ⟨Dtype.float32, [2], "cpu"⟩)]
              [("w", ⟨Dtype.float32, [3], "cpu"⟩)]).contains kv.1))), true, (0 : Nat) == 0⟩
       | .error e₂ => .error (.loadError e₂)) :=
  fallback_removes_exactly_reported [("w", ⟨Dtype.float32, [2], "cpu"⟩)] "float32" "cpu" 0
    [("w", ⟨Dtype.float32, [3], "cpu"⟩)] [("w", ⟨Dtype.float32, [3], "cpu"⟩)] false
    (String.mk (headerChars ++ joinMsgs [mismatchLineChars "w"]))
    (by decide) (by decide) (by decide) (by decide) (by decide)

set_option maxRecDepth 10000 in
/-- C4 counterexample: live keys `a` (shape [1]) and `a:b` (shape [2]); the
snapshot mismatches only on `a:b`.  The failure message reports `a:b`, but the
lazy capture of `re.findall("size mismatch for (.*?):", ...)` stops at the
colon inside the key: the parse returns `a`, so the healthy key `a` is popped
before the retry while the mismatched `a:b` is kept — the removed set differs
from the reported mismatch set, and the retry still fails on `a:b`. -/
theorem fallback_removed_keys_cex :
    (match loadStateDict
        [("a", ⟨Dtype.float32, [1], "cpu"⟩), ("a:b", ⟨Dtype.float32, [2], "cpu"⟩)]
        [("a", ⟨Dtype.float32, [1], "cpu"⟩), ("a:b", ⟨Dtype.float32, [3], "cpu"⟩)] true with
      | .error e => findAllSizeMismatch e
      | .ok _ => []) = ["a"] ∧
    sizeMismatchKeys [("a", ⟨Dtype.float32, [1], "cpu"⟩), ("a:b", ⟨Dtype.float32, [2], "cpu"⟩)]
      [("a", ⟨Dtype.float32, [1], "cpu"⟩), ("a:b", ⟨Dtype.float32, [3], "cpu"⟩)] = ["a:b"] ∧
    load_model_weights
        [("a", ⟨Dtype.float32, [1], "cpu"⟩), ("a:b", ⟨Dtype.float32, [2], "cpu"⟩)]
        "float32" "cpu" 0
        [("a", ⟨Dtype.float32, [1], "cpu"⟩), ("a:b", ⟨Dtype.float32, [3], "cpu"⟩)] false =
      .error (.loadError (String.mk (headerChars ++ joinMsgs [mismatchLineChars "a:b"]))) := by
  refine ⟨by decide, by decide, ?_⟩
  decide

/-! ## Round-trip machinery (C5) -/

theorem containsSubChars_tail (n : List Char) (c : Char) (rest : List Char)
    (h : containsSubChars n (c :: rest) = false) : containsSubChars n rest = false := by
  by_cases hb : containsSubChars n rest = true
  · exfalso
    unfold containsSubChars at hb h
    rw [List.any_eq_true] at hb
    obtain ⟨i, hi, hp⟩ := hb
    rw [List.mem_range] at hi
    have hocc : (List.range ((c :: rest).length + 1)).any
        (fun j => n.isPrefixOf ((c :: rest).drop j)) = true := by
      rw [List.any_eq_true]
      refine ⟨i + 1, List.mem_range.mpr (by simp only [List.length_cons]; omega), ?_⟩
      rwa [List.drop_succ_cons]
    rw [hocc] at h
    exact absurd h (by simp)
  · exact Bool.not_eq_true _ ▸ hb

theorem containsSubChars_head (n : List Char) (c : Char) (rest : List Char)
    (h : containsSubChars n (c :: rest) = false) : n.isPrefixOf (c :: rest) = false := by
  by_cases hb : n.isPrefixOf (c :: rest) = true
  · exfalso
    unfold containsSubChars at h
    have hocc : (List.range ((c :: rest).length + 1)).any
        (fun j => n.isPrefixOf ((c :: rest).drop j)) = true := by
      rw [List.any_eq_true]
      exact ⟨0, List.mem_range.mpr (by omega), by simpa using hb⟩
    rw [hocc] at h
    exact absurd h (by simp)
  · exact Bool.not_eq_true _ ▸ hb

theorem removeOrigModAux_id : ∀ fuel (l : List Char),
    containsSubChars origModChars l = false → removeOrigModAux fuel l = l := by
  intro fuel
  induction fuel with
  | zero => intro l _; rfl
  | succ fuel ih =>
    intro l h
    cases l with
    | nil => rfl
    | cons c rest =>
      have hp := containsSubChars_head origModChars c rest h
      simp only [removeOrigModAux, hp, Bool.false_eq_true, if_false]
      rw [ih rest (containsSubChars_tail origModChars c rest h)]

theorem removeOrigMod_id (k : String) (h : hasSubstr "_orig_mod." k = false) :
    removeOrigMod k = k := by
  unfold removeOrigMod removeOrigModChars
  unfold hasSubstr at h
  rw [removeOrigModAux_id _ _ h]
  exact string_eta k

theorem stripModulePre_id (k : String)
    (h : ("module.".toList).isPrefixOf k.toList = false) :
    stripModulePre k = k := by
  unfold stripModulePre
  rw [if_neg (by rw [h]; simp)]

theorem renameKeys_id (mw : StateDict)
    (h : ∀ kv ∈ mw, ("module.".toList).isPrefixOf kv.1.toList = false ∧
      hasSubstr "_orig_mod." kv.1 = false) :
    renameKeys mw = mw := by
  unfold renameKeys
  rw [List.map_map]
  have hcongr : ∀ kv ∈ mw,
      ((fun kv => (removeOrigMod kv.1, kv.2)) ∘ fun kv => (stripModulePre kv.1, kv.2)) kv =
        id kv := by
    intro kv hkv
    obtain ⟨h1, h2⟩ := h kv hkv
    simp only [Function.comp_apply, id_eq]
    rw [stripModulePre_id kv.1 h1, removeOrigMod_id kv.1 h2]
  rw [List.map_congr_left hcongr, List.map_id]

theorem filterWeights_id (d : String) (M : StateDict) : ∀ (sd : StateDict),
    (∀ kv ∈ sd, dropCond d kv.1 = false ∧ replCond d kv.2 = false) →
    filterWeights d M sd = .ok sd := by
  intro sd
  induction sd with
  | nil => intro _; rfl
  | cons kv rest ih =>
    intro h
    obtain ⟨k, v⟩ := kv
    obtain ⟨hd, hr⟩ := h (k, v) (by simp)
    simp only [filterWeights, hd, Bool.false_eq_true, if_false, hr]
    rw [ih (fun x hx => h x (List.mem_cons_of_mem _ hx))]
    rfl

theorem lookupSd_self : ∀ (M : StateDict), (keysOf M).Nodup →
    ∀ (k : String) (v : Tensor), (k, v) ∈ M → lookupSd M k = some v := by
  intro M
  induction M with
  | nil => intro _ k v hmem; simp at hmem
  | cons kv rest ih =>
    intro hnd k v hmem
    have hnd' := hnd
    simp only [keysOf, List.map_cons, List.nodup_cons] at hnd'
    obtain ⟨hnotin, hndrest⟩ := hnd'
    rcases List.mem_cons.mp hmem with heq | hmemrest
    · rw [← heq]
      unfold lookupSd
      rw [List.find?_cons_of_pos _ (by simp)]
      rfl
    · have hne : (kv.1 == k) = false := by
        by_cases hb : kv.1 = k
        · exfalso
          apply hnotin
          rw [hb]
          exact List.mem_map_of_mem Prod.fst hmemrest
        · simp [hb]
      unfold lookupSd
      rw [List.find?_cons_of_neg _ (by simp [hne])]
      exact ih hndrest k v hmemrest

theorem deviceFix_keys (d dev : String) (M : StateDict) :
    keysOf (deviceFix d dev M) = keysOf M := by
  unfold deviceFix keysOf
  by_cases h8 : (d == "int8") = true
  · rw [if_pos h8, List.map_map]
    rfl
  · rw [if_neg h8]

theorem loadStateDict_deviceSelf (M : StateDict) (d dev : String)
    (hnd : (keysOf M).Nodup) :
    loadStateDict M (deviceFix d dev M) true = .ok () := by
  have hmism : sizeMismatchKeys M (deviceFix d dev M) = [] := by
    unfold sizeMismatchKeys
    rw [List.filterMap_eq_nil_iff]
    intro kv hkv
    unfold deviceFix at hkv
    by_cases h8 : (d == "int8") = true
    · rw [if_pos h8] at hkv
      obtain ⟨⟨k, v⟩, hmem, heq⟩ := List.mem_map.mp hkv
      rw [← heq]
      dsimp only
      rw [lookupSd_self M hnd k v hmem]
      dsimp only
      rw [if_neg (by by_cases hwf : hasSubstr "weight_format" k = true <;>
        simp [hwf, Tensor.toDev])]
    · rw [if_neg h8] at hkv
      have hmem : (kv.1, kv.2) ∈ M := by simpa using hkv
      rw [lookupSd_self M hnd kv.1 kv.2 hmem]
      dsimp only
      rw [if_neg (by simp)]
  have hmiss : missingKeys M (deviceFix d dev M) = [] := by
    unfold missingKeys
    rw [deviceFix_keys, List.filter_eq_nil_iff]
    intro k hk
    simp [hk]
  have hunexp : unexpectedKeys M (deviceFix d dev M) = [] := by
    unfold unexpectedKeys
    rw [deviceFix_keys, List.filter_eq_nil_iff]
    intro k hk
    simp [hk]
  unfold loadStateDict loadErrMsgs
  rw [hmism, hmiss, hunexp]
  simp

/-- C5 (amended): saving with `save_checkpoint` (standard strategy, rank 0,
non-classification task) writes the unwrapped model snapshot under the
`model` key, and loading that snapshot with `strict=true` into a freshly
constructed identical model succeeds with zero keys dropped or replaced, no
fallback and no warning — provided the snapshot keys avoid the rename
artefacts (`module.` prefix, `_orig_mod.` occurrence) and the dtype filter
would drop or replace nothing.  (Without those provisos the round trip can
raise; see the counterexample.) -/
theorem roundtrip_strict_ok (m : TorchModule) (p : String) (cfg : SaveCfg)
    (d dev : String) (rank : Nat)
    (hds : cfg.use_deepspeed = false) (h0 : cfg.local_rank = 0)
    (hpt : cfg.problem_type ≠ "text_causal_classification_modeling")
    (hnd : (keysOf (unwrap_model m).state_dict).Nodup)
    (hkeys : ∀ kv ∈ (unwrap_model m).state_dict,
      ("module.".toList).isPrefixOf kv.1.toList = false ∧
      hasSubstr "_orig_mod." kv.1 = false ∧
      dropCond d kv.1 = false ∧ replCond d kv.2 = false) :
    save_checkpoint m (some p) cfg =
      .ok ⟨[p ++ "/checkpoint.pth"], some (unwrap_model m).state_dict⟩ ∧
    droppedKeys d (unwrap_model m).state_dict = [] ∧
    replacedKeys d (unwrap_model m).state_dict = [] ∧
    load_model_weights (unwrap_model m).state_dict d dev rank
        (unwrap_model m).state_dict true =
      .ok ⟨deviceFix d dev (unwrap_model m).state_dict, false, false⟩ := by
  refine ⟨?_, ?_, ?_, ?_⟩
  · unfold save_checkpoint
    simp only [hds, Bool.false_eq_true, if_false, h0, if_pos rfl]
    rw [if_neg (by intro hc; exact hpt hc.2)]
    simp
  · unfold droppedKeys
    have hfil : ((unwrap_model m).state_dict).filter (fun kv => dropCond d kv.1) = [] := by
      rw [List.filter_eq_nil_iff]
      intro kv hkv
      simp [(hkeys kv hkv).2.2.1]
    rw [hfil]
    rfl
  · unfold replacedKeys
    have hfil : ((unwrap_model m).state_dict).filter
        (fun kv => !(dropCond d kv.1) && replCond d kv.2) = [] := by
      rw [List.filter_eq_nil_iff]
      intro kv hkv
      simp [(hkeys kv hkv).2.2.2]
    rw [hfil]
    rfl
  · unfold load_model_weights
    rw [filterWeights_id d _ _ (fun kv hkv => ⟨(hkeys kv hkv).2.2.1, (hkeys kv hkv).2.2.2⟩)]
    dsimp only
    rw [renameKeys_id _ (fun kv hkv => ⟨(hkeys kv hkv).1, (hkeys kv hkv).2.1⟩)]
    rw [loadStateDict_deviceSelf _ d dev hnd]

/-- C5 witness: a one-key float32 model round-trips through `save_checkpoint`
and a strict `load_model_weights` with nothing dropped, replaced, retried or
warned. -/
theorem roundtrip_strict_ok_witness :
    save_checkpoint (.base [("w", ⟨Dtype.float32, [2], "cpu"⟩)]) (some "out")
        ⟨false, 0, "text_causal_language_modeling"⟩ =
      .ok ⟨["out/checkpoint.pth"], some [("w", ⟨Dtype.float32, [2], "cpu"⟩)]⟩ ∧
    droppedKeys "float32" [("w", ⟨Dtype.float32, [2], "cpu"⟩)] = [] ∧
    replacedKeys "float32" [("w", ⟨Dtype.float32, [2], "cpu"⟩)] = [] ∧
    load_model_weights [("w", ⟨Dtype.float32, [2], "cpu"⟩)] "float32" "cpu" 0
        [("w", ⟨Dtype.float32, [2], "cpu"⟩)] true =
      .ok ⟨deviceFix "float32" "cpu" [("w", ⟨Dtype.float32, [2], "cpu"⟩)], false, false⟩ :=
  roundtrip_strict_ok (.base [("w", ⟨Dtype.float32, [2], "cpu"⟩)]) "out"
    ⟨false, 0, "text_causal_language_modeling"⟩ "float32" "cpu" 0
    rfl rfl (by decide) (by decide) (by decide)

/-- C5 counterexample: a model whose parameter key starts with the literal
`module.` (a legal submodule name).  Saving works, but the strict reload of
its own checkpoint raises: the loader strips the `module.` prefix as a
distributed-wrapper artefact, so the live key goes missing and an unexpected
key appears — the round trip is not successful for every model. -/
theorem roundtrip_module_prefix_cex :
    save_checkpoint (.base [("module.w", ⟨Dtype.float32, [1], "cpu"⟩)]) (some "out")
        ⟨false, 0, "text_causal_language_modeling"⟩ =
      .ok ⟨["out/checkpoint.pth"], some [("module.w", ⟨Dtype.float32, [1], "cpu"⟩)]⟩ ∧
    isOkE (load_model_weights [("module.w", ⟨Dtype.float32, [1], "cpu"⟩)] "float32" "cpu" 0
      [("module.w", ⟨Dtype.float32, [1], "cpu"⟩)] true) = false := by
  exact ⟨by decide, by decide⟩

end ModelingUtils
